import Mathlib

/-!
Verification of the `release-installer` core logic against its specification.

The development shallowly embeds the two algorithmic components of the
package (file `src/platform.ts` and the streaming tar decoder of
`src/extract.ts`):

* the platform/asset matcher (`getPlatformInfo` consumers `matchAssetName`
  and `findBestAsset`), with filenames modelled as Lean `String`s,
  JavaScript `toLowerCase` as ASCII lowercasing and `String.includes` as
  contiguous-substring search over the character list;
* the streaming tar decoder (`parseTarHeader` and the chunk-processing
  state machine inside `extractTarGz`), with byte buffers modelled as
  `List Nat`, the file system modelled as the ordered list of
  (name, written bytes) pairs emitted when an output stream is closed, and
  JavaScript `parseInt(s, 8)` modelled as `Option Int` (`none` = `NaN`).

Writing to an output stream is modelled by accumulating the written bytes in
the open-file record; closing the stream appends the finished (name, bytes)
pair to the `files` list.  An `events` field records the open/close calls
issued to the file-system layer, and the `declared` field of an open file
records the header-declared size at the moment the stream was opened; both
are specification-only instrumentation that the transition functions never
read.
-/

/-! ## Character-list string utilities (JavaScript semantics) -/

/-- `startsWithL pat s`: `pat` is a prefix of `s`. -/
def startsWithL : List Char → List Char → Bool
  | [], _ => true
  | _ :: _, [] => false
  | a :: as, b :: bs => a == b && startsWithL as bs

/-- `includesL pat s`: `pat` occurs contiguously in `s`
(JavaScript `s.includes(pat)`). -/
def includesL : List Char → List Char → Bool
  | pat, [] => pat.isEmpty
  | pat, c :: rest => startsWithL pat (c :: rest) || includesL pat rest

/-- Substring test on `String` (JavaScript `s.includes(pat)`). -/
def strIncludes (s pat : String) : Bool := includesL pat.data s.data

/-- Suffix test on `String` (JavaScript `s.endsWith(suf)`). -/
def strEndsWith (s suf : String) : Bool := startsWithL suf.data.reverse s.data.reverse

/-- ASCII lowercasing, the relevant fragment of JavaScript `toLowerCase`. -/
def toLowerStr (s : String) : String := s.map Char.toLower

/-! ## Platform matcher (`src/platform.ts`) -/

/-- Mirrors the `PlatformInfo` interface. -/
structure PlatformInfo where
  platform : String
  arch : String
  combined : String
deriving Repr, DecidableEq

/-- The `platformPatterns` object literal of `matchAssetName`;
`none` models the `undefined` of a missing key. -/
def platformPatterns (p : String) : Option (List String) :=
  if p = "darwin" then some ["apple-darwin", "macos", "darwin", "apple"]
  else if p = "linux" then some ["linux-gnu", "linux", "unknown-linux"]
  else if p = "win32" then some ["windows-msvc", "windows", "win64", "win32", "pc-windows"]
  else none

/-- The `archPatterns` object literal of `matchAssetName`. -/
def archPatterns (a : String) : Option (List String) :=
  if a = "x64" then some ["x86_64", "x64", "amd64"]
  else if a = "arm64" then some ["aarch64", "arm64"]
  else if a = "arm" then some ["armv7", "arm"]
  else none

/-- `matchAssetName` from `src/platform.ts`.  The two `?.some(...)` lookups
give `Option Bool`s; `Boolean(platformMatch && archMatch)` is `true` exactly
when both are `some true`, i.e. `Option.getD false` on each. -/
def matchAssetName (assetName : String) (pinfo : PlatformInfo) : Bool :=
  let name := toLowerStr assetName
  let platformMatch :=
    (platformPatterns pinfo.platform).map (fun pats => pats.any (fun pat => strIncludes name pat))
  let archMatch :=
    (archPatterns pinfo.arch).map (fun pats => pats.any (fun pat => strIncludes name pat))
  platformMatch.getD false && archMatch.getD false

/-- `findBestAsset` from `src/platform.ts`; `assets[0]` on a list known
non-empty is modelled by `head?`. -/
def findBestAsset (assets : List String) (pinfo : PlatformInfo) : Option String :=
  let matched := assets.filter (fun asset => matchAssetName asset pinfo)
  if matched.length = 0 then none
  else if matched.length = 1 then matched.head?
  else if pinfo.platform ≠ "win32" then
    match matched.find? (fun m => strEndsWith m ".tar.gz") with
    | some tarGz => some tarGz
    | none => matched.head?
  else matched.head?

/-! ## Specification-side matcher definitions (claims C7 and C8) -/

/-- OS families enumerated by the specification's platform descriptor. -/
inductive OsFamily | darwin | linux | windows
deriving Repr, DecidableEq

/-- Architecture families enumerated by the specification. -/
inductive ArchFamily | x64 | arm64 | arm
deriving Repr, DecidableEq

/-- The `node:os` platform string denoting each OS family. -/
def osKey : OsFamily → String
  | .darwin => "darwin"
  | .linux => "linux"
  | .windows => "win32"

/-- The `node:os` arch string denoting each architecture family. -/
def archKey : ArchFamily → String
  | .x64 => "x64"
  | .arm64 => "arm64"
  | .arm => "arm"

/-- The specification's OS pattern table. -/
def osPatternsSpec : OsFamily → List String
  | .darwin => ["apple-darwin", "macos", "darwin", "apple"]
  | .linux => ["linux-gnu", "linux", "unknown-linux"]
  | .windows => ["windows-msvc", "windows", "win64", "win32", "pc-windows"]

/-- The specification's architecture pattern table. -/
def archPatternsSpec : ArchFamily → List String
  | .x64 => ["x86_64", "x64", "amd64"]
  | .arm64 => ["aarch64", "arm64"]
  | .arm => ["armv7", "arm"]

/-- The selection policy as worded by the specification: zero matches give
none; a unique match is returned; with several matches, Windows takes the
first match, other platforms take the first match ending in ".tar.gz" when
one exists and the first match otherwise. -/
def selectBestSpec (assets : List String) (pinfo : PlatformInfo) : Option String :=
  match assets.filter (fun asset => matchAssetName asset pinfo) with
  | [] => none
  | [m] => some m
  | m :: ms =>
    if pinfo.platform = "win32" then some m
    else
      match (m :: ms).find? (fun x => strEndsWith x ".tar.gz") with
      | some tarGz => some tarGz
      | none => some m

/-! ## Byte-level helpers for the tar decoder (`src/extract.ts`) -/

/-- ASCII whitespace bytes stripped by JavaScript `trim` and skipped by
`parseInt` (the fragment reachable from single-byte UTF-8). -/
def isWsByte (b : Nat) : Bool :=
  b = 9 || b = 10 || b = 11 || b = 12 || b = 13 || b = 32

/-- Value of a big-endian run of ASCII octal digits. -/
def octValue (ds : List Nat) : Nat :=
  ds.foldl (fun acc b => acc * 8 + (b - 48)) 0

/-- `octRun s`: value of the maximal leading run of octal digits of `s`,
`none` when that run is empty (the digit-consuming core of
`parseInt(s, 8)`). -/
def octRun (s : List Nat) : Option Nat :=
  let ds := s.takeWhile (fun b => 48 ≤ b && b ≤ 55)
  if ds.isEmpty then none else some (octValue ds)

/-- JavaScript `parseInt(s, 8)` on a byte string: skip leading whitespace,
an optional sign, then the maximal octal-digit run; `none` models `NaN`. -/
def parseIntOctal (s : List Nat) : Option Int :=
  match s.dropWhile isWsByte with
  | [] => none
  | c :: rest =>
    if c = 43 then (octRun rest).map (fun n => Int.ofNat n)
    else if c = 45 then (octRun rest).map (fun n => -(Int.ofNat n))
    else (octRun (c :: rest)).map (fun n => Int.ofNat n)

/-- JavaScript `trim`: drop whitespace from both ends. -/
def jsTrim (s : List Nat) : List Nat :=
  ((s.dropWhile isWsByte).reverse.dropWhile isWsByte).reverse

/-- JavaScript `buffer.indexOf(0)`: index of the first zero byte,
`none` for the `-1` absent case. -/
def indexOfZero : List Nat → Option Nat
  | [] => none
  | b :: rest => if b = 0 then some 0 else (indexOfZero rest).map (· + 1)

/-- The decoder's two-valued type flag: byte 0 or ASCII '0' means a regular
file, anything else is lumped as `directory` by the source. -/
inductive FileType | file | directory
deriving Repr, DecidableEq

/-- Mirrors the `TarHeader` interface; `size` is `Option Int` because
`parseInt` can produce `NaN` (modelled `none`).  The name is kept as its
raw bytes (UTF-8 decoding is irrelevant to the claims). -/
structure TarHeader where
  name : List Nat
  size : Option Int
  type : FileType
deriving Repr, DecidableEq

/-- `parseTarHeader` from `src/extract.ts`. -/
def parseTarHeader (buffer : List Nat) : Option TarHeader :=
  if buffer.length < 512 then none
  else
    let nameBytes := buffer.take 100
    if nameBytes.any (fun b => b != 0) = false then none
    else
      let nameLen :=
        match indexOfZero nameBytes with
        | some k => if 0 < k then k else 100
        | none => 100
      let sizeStr := (jsTrim ((buffer.drop 124).take 12)).filter (fun b => b != 0)
      let size := if sizeStr.isEmpty then some (0 : Int) else parseIntOctal sizeStr
      let typeFlag := buffer.getD 156 0
      let ftype := if typeFlag = 48 ∨ typeFlag = 0 then FileType.file else FileType.directory
      some { name := nameBytes.take nameLen, size := size, type := ftype }

/-! ## The streaming decoder state machine of `extractTarGz` -/

/-- Open/close calls issued to the file-system layer (ghost trace). -/
inductive TarEvent
  | openFile (name : List Nat)
  | closeFile (name : List Nat)
deriving Repr, DecidableEq

/-- The `currentFile` record: `size` is the remaining byte count that the
source decrements, `content` the bytes written to the stream so far, and
`declared` the header-declared size at open time (ghost, never read by the
transition functions). -/
structure OpenFile where
  name : List Nat
  declared : Nat
  size : Nat
  content : List Nat
deriving Repr, DecidableEq

/-- The decoder state: the accumulator `buffer`, the optional current file,
the closed files in completion order, and the ghost event trace. -/
structure DecState where
  buffer : List Nat
  currentFile : Option OpenFile
  files : List (List Nat × List Nat)
  events : List TarEvent
deriving Repr, DecidableEq

/-- Result of one body-branch iteration of the `while` loop: `next`
continues the loop, `stop` is the `break` on insufficient data. -/
inductive StepResult
  | next (s : DecState)
  | stop (s : DecState)
deriving Repr, DecidableEq

/-- `true` iff `header.size > 0` holds in JavaScript (`NaN > 0` is false). -/
def sizeIsPos : Option Int → Bool
  | some n => 0 < n
  | none => false

/-- `header.size` coerced to the stored counter (only used when positive). -/
def sizeToNat : Option Int → Nat
  | some n => n.toNat
  | none => 0

/-- The header branch of the loop (`!currentFile`): parse the next block,
skip it if invalid/terminator, open an output stream for a regular file of
positive size, consume the 512 header bytes. -/
def tarHeaderStep (s : DecState) : DecState :=
  match parseTarHeader (s.buffer.take 512) with
  | none => { s with buffer := s.buffer.drop 512 }
  | some header =>
    if header.type = FileType.file ∧ sizeIsPos header.size then
      { buffer := s.buffer.drop 512,
        currentFile := some
          { name := header.name, declared := sizeToNat header.size,
            size := sizeToNat header.size, content := [] },
        files := s.files,
        events := s.events ++ [TarEvent.openFile header.name] }
    else { s with buffer := s.buffer.drop 512 }

/-- The body branch of the loop (`currentFile` present): write
`min(remaining, buffered)` bytes, then either close the stream and skip
padding computed from this write's size (when the remaining count reached
0), break on insufficient data, or continue. -/
def tarBodyStep (s : DecState) (cf : OpenFile) : StepResult :=
  let remainingSize := cf.size
  let availableData := min remainingSize s.buffer.length
  let cf' :=
    if 0 < availableData then
      { cf with size := cf.size - availableData,
                content := cf.content ++ s.buffer.take availableData }
    else cf
  let buf' := if 0 < availableData then s.buffer.drop availableData else s.buffer
  if cf'.size = 0 then
    let paddingSize := (512 - availableData % 512) % 512
    let buf'' := if paddingSize ≤ buf'.length then buf'.drop paddingSize else buf'
    StepResult.next
      { buffer := buf'', currentFile := none,
        files := s.files ++ [(cf'.name, cf'.content)],
        events := s.events ++ [TarEvent.closeFile cf'.name] }
  else if buf'.length < remainingSize then
    StepResult.stop { buffer := buf', currentFile := some cf', files := s.files, events := s.events }
  else
    StepResult.next { buffer := buf', currentFile := some cf', files := s.files, events := s.events }

/-- Fuel-indexed form of the `while (buffer.length >= 512)` loop. -/
def tarLoopFuel : Nat → DecState → DecState
  | 0, s => s
  | fuel + 1, s =>
    if s.buffer.length < 512 then s
    else
      match s.currentFile with
      | none => tarLoopFuel fuel (tarHeaderStep s)
      | some cf =>
        match tarBodyStep s cf with
        | StepResult.next s' => tarLoopFuel fuel s'
        | StepResult.stop s' => s'

/-- Loop-variant used to justify the fuel bound: each iteration either
consumes buffered bytes or closes the current file. -/
def stMeasure (s : DecState) : Nat :=
  2 * s.buffer.length + (if s.currentFile.isSome then 1 else 0)

/-- The `while` loop of `processChunk`, with always-sufficient fuel. -/
def tarLoop (s : DecState) : DecState := tarLoopFuel (stMeasure s + 1) s

/-- One `gunzip.on('data')` delivery: append the chunk and run the loop. -/
def processChunk (s : DecState) (chunk : List Nat) : DecState :=
  tarLoop { s with buffer := s.buffer ++ chunk }

/-- Decoder state before any chunk arrives. -/
def initState : DecState := { buffer := [], currentFile := none, files := [], events := [] }

/-- State after feeding a chunk sequence in delivery order. -/
def runChunks (chunks : List (List Nat)) : DecState :=
  chunks.foldl processChunk initState

/-- The `gunzip.on('end')` handler: close the still-open stream, if any. -/
def eofFinish (s : DecState) : DecState :=
  match s.currentFile with
  | some cf =>
    { s with files := s.files ++ [(cf.name, cf.content)],
             events := s.events ++ [TarEvent.closeFile cf.name] }
  | none => s

/-- Output files (name, bytes) of decoding the given chunk sequence. -/
def extract (chunks : List (List Nat)) : List (List Nat × List Nat) :=
  (eofFinish (runChunks chunks)).files

/-- Ghost open/close trace of decoding the given chunk sequence. -/
def extractEvents (chunks : List (List Nat)) : List TarEvent :=
  (eofFinish (runChunks chunks)).events

/-! ## Trace well-formedness (claim C9) -/

/-- `evOk tr flag`: scanning `tr` with `flag` = "a file is currently open",
every open happens with no file open and every close with one open. -/
def evOk : List TarEvent → Bool → Bool
  | [], _ => true
  | TarEvent.openFile _ :: rest, flag => !flag && evOk rest true
  | TarEvent.closeFile _ :: rest, flag => flag && evOk rest false

/-- Final open-file flag after scanning a trace. -/
def endFlag : List TarEvent → Bool → Bool
  | [], flag => flag
  | TarEvent.openFile _ :: rest, _ => endFlag rest true
  | TarEvent.closeFile _ :: rest, _ => endFlag rest false

/-! ## Concrete archive material used by the claim instances -/

/-- Build a 512-byte tar header block: 100 name bytes, 24 bytes of
mode/uid/gid, the 12-byte size field, 20 bytes of mtime/checksum, the type
flag at offset 156 and zero fill. -/
def mkHeader (name : List Nat) (sizeField : List Nat) (typeFlag : Nat) : List Nat :=
  name ++ List.replicate (100 - name.length) 0 ++ List.replicate 24 0 ++
    sizeField ++ List.replicate 20 0 ++ [typeFlag] ++ List.replicate 355 0

/-- "test.txt" as bytes. -/
def c6name : List Nat := [116, 101, 115, 116, 46, 116, 120, 116]

/-- "Hello, world!" as bytes (13 bytes). -/
def c6content : List Nat := [72, 101, 108, 108, 111, 44, 32, 119, 111, 114, 108, 100, 33]

/-- Header of the claim C6 archive: name "test.txt", size field
"000000000015" (octal for 13), regular-file type flag. -/
def hdr6 : List Nat := mkHeader c6name (List.replicate 10 48 ++ [49, 53]) 48

/-- The valid single-file archive of claim C6: header, 13 content bytes,
padding to the block boundary and two all-zero terminator blocks. -/
def c6stream : List Nat :=
  hdr6 ++ (c6content ++ (List.replicate 499 0 ++ List.replicate 1024 0))

/-- Header of the claim C3 archive: name "f", size field "000000000144"
(octal for 100), regular-file type flag. -/
def hdr3 : List Nat := mkHeader [102] (List.replicate 9 48 ++ [49, 52, 52]) 48

/-- The truncated archive of claim C3: a header declaring 100 bytes,
followed by only 50 body bytes. -/
def c3stream : List Nat := hdr3 ++ List.replicate 50 65

/-- Header of file "t" for claim C1: size field "000000001010"
(octal for 520). -/
def hdrT : List Nat := mkHeader [116] (List.replicate 8 48 ++ [49, 48, 49, 48]) 48

/-- Header of file "u" for claim C1: size field "000000000001". -/
def hdrU : List Nat := mkHeader [117] (List.replicate 11 48 ++ [49]) 48

/-- First chunk of the misaligned split for claim C1: the header of "t"
plus 516 of its 520 body bytes. -/
def c1chunkA : List Nat := hdrT ++ List.replicate 516 65

/-- Second chunk of the misaligned split for claim C1: the remaining 4 body
bytes of "t", its 504 padding bytes, the complete one-byte file "u"
(header, body, padding) and the two all-zero terminator blocks.
`c1chunkA ++ c1chunkB` is a well-formed two-file archive of 3584 bytes. -/
def c1chunkB : List Nat :=
  List.replicate 4 65 ++ (List.replicate 504 0 ++ (hdrU ++
    ([66] ++ (List.replicate 511 0 ++ List.replicate 1024 0))))

/-- Open-file record for claim C2: file "t" declared 520 bytes, 516 bytes
already written in an earlier iteration, 4 bytes remaining. -/
def c2cf : OpenFile :=
  { name := [116], declared := 520, size := 4, content := List.replicate 516 65 }

/-- Decoder state for claim C2: the last 4 body bytes of "t" are buffered
together with the following 504 padding bytes and one 512-byte zero block. -/
def c2state : DecState :=
  { buffer := List.replicate 4 65 ++ List.replicate 1016 0,
    currentFile := some c2cf, files := [], events := [TarEvent.openFile [116]] }

/-- Header block for claim C4 whose 12-byte size field is "zzzzzzzzzzzz",
a non-empty string that `parseInt(_, 8)` cannot parse. -/
def c4block : List Nat := mkHeader [97] (List.replicate 12 122) 48

/-- Header block for claim C5 whose name field starts with a null byte
followed by a non-zero byte. -/
def c5block : List Nat := mkHeader [0, 65] (List.replicate 12 48) 48

/-- Header block with a well-formed octal size field, used by the C4
witness. -/
def c4wfBlock : List Nat := mkHeader [97] (List.replicate 10 48 ++ [49, 53]) 48

/-! ## Loop equation: the fuel bound is always sufficient -/

theorem headerStep_buffer (s : DecState) : (tarHeaderStep s).buffer = s.buffer.drop 512 := by
  unfold tarHeaderStep
  cases parseTarHeader (s.buffer.take 512) with
  | none => rfl
  | some header => by_cases h : header.type = FileType.file ∧ sizeIsPos header.size <;> simp [h]

theorem headerStep_measure (s : DecState) (h : ¬ s.buffer.length < 512) :
    stMeasure (tarHeaderStep s) < stMeasure s := by
  have hb := headerStep_buffer s
  have h1 : (if (tarHeaderStep s).currentFile.isSome then 1 else 0) ≤ 1 := by split <;> omega
  have h2 : (if s.currentFile.isSome then 1 else 0) ≤ 1 := by split <;> omega
  unfold stMeasure
  rw [hb, List.length_drop]
  omega

theorem bodyStep_next_measure (s : DecState) (cf : OpenFile) (s' : DecState)
    (hlen : ¬ s.buffer.length < 512) (h : tarBodyStep s cf = StepResult.next s') :
    stMeasure s' < 2 * s.buffer.length + 1 := by
  simp only [tarBodyStep] at h
  repeat' split at h
  all_goals first
    | exact StepResult.noConfusion h
    | (cases h
       simp only [stMeasure, List.length_drop, Option.isSome_none, Option.isSome_some,
         Bool.false_eq_true, if_false, if_true]
       omega)

theorem tarLoopFuel_congr : ∀ f1 f2 s, stMeasure s < f1 → stMeasure s < f2 →
    tarLoopFuel f1 s = tarLoopFuel f2 s := by
  intro f1
  induction f1 with
  | zero => intro f2 s h1 _; exact absurd h1 (Nat.not_lt_zero _)
  | succ f ih =>
    intro f2 s h1 h2
    cases f2 with
    | zero => exact absurd h2 (Nat.not_lt_zero _)
    | succ g =>
      by_cases hb : s.buffer.length < 512
      · simp [tarLoopFuel, hb]
      · cases hcf : s.currentFile with
        | none =>
          have hm := headerStep_measure s hb
          have hms : stMeasure s ≤ 2 * s.buffer.length + 1 := by
            unfold stMeasure; split <;> omega
          simp only [tarLoopFuel, if_neg hb, hcf]
          exact ih g (tarHeaderStep s) (by omega) (by omega)
        | some cf =>
          have hms : stMeasure s = 2 * s.buffer.length + 1 := by
            unfold stMeasure; rw [hcf]; simp
          cases hstep : tarBodyStep s cf with
          | next s' =>
            have hm := bodyStep_next_measure s cf s' hb hstep
            simp only [tarLoopFuel, if_neg hb, hcf, hstep]
            exact ih g s' (by omega) (by omega)
          | stop s' =>
            simp only [tarLoopFuel, if_neg hb, hcf, hstep]

theorem tarLoopFuel_eq_tarLoop (f : Nat) (s : DecState) (h : stMeasure s < f) :
    tarLoopFuel f s = tarLoop s :=
  tarLoopFuel_congr f (stMeasure s + 1) s h (Nat.lt_succ_self _)

theorem tarLoop_eq (s : DecState) :
    tarLoop s =
      if s.buffer.length < 512 then s
      else
        match s.currentFile with
        | none => tarLoop (tarHeaderStep s)
        | some cf =>
          match tarBodyStep s cf with
          | StepResult.next s' => tarLoop s'
          | StepResult.stop s' => s' := by
  by_cases hb : s.buffer.length < 512
  · show tarLoopFuel (stMeasure s + 1) s = _
    rw [tarLoopFuel]
    simp [hb]
  · cases hcf : s.currentFile with
    | none =>
      have hm := headerStep_measure s hb
      show tarLoopFuel (stMeasure s + 1) s = _
      rw [tarLoopFuel]
      simp only [if_neg hb, hcf]
      exact tarLoopFuel_eq_tarLoop _ _ (by omega)
    | some cf =>
      have hms : stMeasure s = 2 * s.buffer.length + 1 := by
        unfold stMeasure; rw [hcf]; simp
      cases hstep : tarBodyStep s cf with
      | next s' =>
        have hm := bodyStep_next_measure s cf s' hb hstep
        show tarLoopFuel (stMeasure s + 1) s = _
        rw [tarLoopFuel]
        simp only [if_neg hb, hcf, hstep]
        exact tarLoopFuel_eq_tarLoop _ _ (by omega)
      | stop s' =>
        show tarLoopFuel (stMeasure s + 1) s = _
        rw [tarLoopFuel]
        simp only [if_neg hb, hcf, hstep]

theorem tarLoop_done (s : DecState) (h : s.buffer.length < 512) : tarLoop s = s := by
  rw [tarLoop_eq]; simp [h]

theorem tarLoop_header (s : DecState) (h : ¬ s.buffer.length < 512) (hcf : s.currentFile = none) :
    tarLoop s = tarLoop (tarHeaderStep s) := by
  rw [tarLoop_eq]; simp [h, hcf]

theorem tarLoop_body_next (s : DecState) (cf : OpenFile) (s' : DecState)
    (h : ¬ s.buffer.length < 512) (hcf : s.currentFile = some cf)
    (hstep : tarBodyStep s cf = StepResult.next s') :
    tarLoop s = tarLoop s' := by
  rw [tarLoop_eq]; simp [h, hcf, hstep]

theorem tarLoop_body_stop (s : DecState) (cf : OpenFile) (s' : DecState)
    (h : ¬ s.buffer.length < 512) (hcf : s.currentFile = some cf)
    (hstep : tarBodyStep s cf = StepResult.stop s') :
    tarLoop s = s' := by
  rw [tarLoop_eq]; simp [h, hcf, hstep]

/-! ## Specifications of single steps in terms of pre-state quantities -/

theorem tarHeaderStep_on (s : DecState) (hdr rest : List Nat) (hb : s.buffer = hdr ++ rest)
    (hlen : hdr.length = 512) :
    tarHeaderStep s =
      match parseTarHeader hdr with
      | none => { s with buffer := rest }
      | some header =>
        if header.type = FileType.file ∧ sizeIsPos header.size then
          { buffer := rest,
            currentFile := some ⟨header.name, sizeToNat header.size, sizeToNat header.size, []⟩,
            files := s.files, events := s.events ++ [TarEvent.openFile header.name] }
        else { s with buffer := rest } := by
  unfold tarHeaderStep
  rw [hb, List.take_left' hlen, List.drop_left' hlen]

theorem tarBodyStep_close_spec (s : DecState) (cf : OpenFile) (hpos : 0 < cf.size)
    (hle : cf.size ≤ s.buffer.length) :
    tarBodyStep s cf =
      StepResult.next
        { buffer :=
            if (512 - cf.size % 512) % 512 ≤ s.buffer.length - cf.size then
              (s.buffer.drop cf.size).drop ((512 - cf.size % 512) % 512)
            else s.buffer.drop cf.size,
          currentFile := none,
          files := s.files ++ [(cf.name, cf.content ++ s.buffer.take cf.size)],
          events := s.events ++ [TarEvent.closeFile cf.name] } := by
  have hmin : min cf.size s.buffer.length = cf.size := min_eq_left hle
  simp only [tarBodyStep, hmin, if_pos hpos]
  simp [Nat.sub_self, List.length_drop]

theorem tarBodyStep_stop_spec (s : DecState) (cf : OpenFile) (hgt : s.buffer.length < cf.size) :
    tarBodyStep s cf =
      StepResult.stop
        { buffer := [],
          currentFile := some ⟨cf.name, cf.declared, cf.size - s.buffer.length, cf.content ++ s.buffer⟩,
          files := s.files, events := s.events } := by
  have hmin : min cf.size s.buffer.length = s.buffer.length := min_eq_right (le_of_lt hgt)
  by_cases hz : 0 < s.buffer.length
  · have h1 : ¬ (cf.size - s.buffer.length = 0) := by omega
    simp only [tarBodyStep, hmin, if_pos hz, h1, if_false, List.take_length, List.drop_length]
    simp [List.length_drop, hgt, Nat.sub_lt_self]
    omega
  · have hbuf : s.buffer = [] := List.eq_nil_of_length_eq_zero (by omega)
    have h1 : ¬ (cf.size = 0) := by omega
    simp [tarBodyStep, hbuf, h1]

/-! ## Component-level forms of the step lemmas, for symbolic runs -/

theorem loopDoneC (buf : List Nat) (cf : Option OpenFile) (fs : List (List Nat × List Nat))
    (ev : List TarEvent) (h : buf.length < 512) :
    tarLoop ⟨buf, cf, fs, ev⟩ = ⟨buf, cf, fs, ev⟩ :=
  tarLoop_done _ h

theorem loopHeaderC (hdr rest : List Nat) (fs : List (List Nat × List Nat))
    (ev : List TarEvent) (hlen : hdr.length = 512) (h : ¬ (hdr ++ rest).length < 512) :
    tarLoop ⟨hdr ++ rest, none, fs, ev⟩ =
      tarLoop
        (match parseTarHeader hdr with
          | none => ⟨rest, none, fs, ev⟩
          | some header =>
            if header.type = FileType.file ∧ sizeIsPos header.size then
              ⟨rest, some ⟨header.name, sizeToNat header.size, sizeToNat header.size, []⟩,
                fs, ev ++ [TarEvent.openFile header.name]⟩
            else ⟨rest, none, fs, ev⟩) := by
  rw [tarLoop_header _ h rfl]
  refine congrArg tarLoop ?_
  rw [tarHeaderStep_on _ hdr rest rfl hlen]

theorem loopCloseC (buf : List Nat) (nm : List Nat) (decl sz : Nat) (cont : List Nat)
    (fs : List (List Nat × List Nat)) (ev : List TarEvent)
    (hpos : 0 < sz) (hle : sz ≤ buf.length) (h : ¬ buf.length < 512) :
    tarLoop ⟨buf, some ⟨nm, decl, sz, cont⟩, fs, ev⟩ =
      tarLoop
        ⟨if (512 - sz % 512) % 512 ≤ buf.length - sz then
            (buf.drop sz).drop ((512 - sz % 512) % 512)
          else buf.drop sz,
          none, fs ++ [(nm, cont ++ buf.take sz)], ev ++ [TarEvent.closeFile nm]⟩ :=
  tarLoop_body_next _ _ _ h rfl (tarBodyStep_close_spec ⟨buf, some ⟨nm, decl, sz, cont⟩, fs, ev⟩
    ⟨nm, decl, sz, cont⟩ hpos hle)

theorem loopStopC (buf : List Nat) (nm : List Nat) (decl sz : Nat) (cont : List Nat)
    (fs : List (List Nat × List Nat)) (ev : List TarEvent)
    (hgt : buf.length < sz) (h : ¬ buf.length < 512) :
    tarLoop ⟨buf, some ⟨nm, decl, sz, cont⟩, fs, ev⟩ =
      ⟨[], some ⟨nm, decl, sz - buf.length, cont ++ buf⟩, fs, ev⟩ :=
  tarLoop_body_stop _ _ _ h rfl (tarBodyStep_stop_spec ⟨buf, some ⟨nm, decl, sz, cont⟩, fs, ev⟩
    ⟨nm, decl, sz, cont⟩ hgt)

theorem extract_one (S : List Nat) :
    extract [S] = (eofFinish (tarLoop ⟨S, none, [], []⟩)).files := by
  show (eofFinish (tarLoop ⟨[] ++ S, none, [], []⟩)).files = _
  rw [List.nil_append]

theorem extract_two (a b : List Nat) :
    extract [a, b] =
      (eofFinish (processChunk (tarLoop ⟨a, none, [], []⟩) b)).files := by
  show (eofFinish (processChunk (tarLoop ⟨[] ++ a, none, [], []⟩) b)).files = _
  rw [List.nil_append]

set_option maxRecDepth 20000

/-- Claim C6: decoding the valid single-file archive (header "test.txt" of
declared size 13, content "Hello, world!", padding, two all-zero terminator
blocks) as one chunk yields exactly one output file named "test.txt" with
byte-identical content; the terminator blocks are skipped without error. -/
theorem C6_single_file_roundtrip : extract [c6stream] = [(c6name, c6content)] := by
  have hlen6 : hdr6.length = 512 := by decide
  have hlenc : c6content.length = 13 := by decide
  have hparse6 : parseTarHeader hdr6 = some ⟨c6name, some 13, FileType.file⟩ := by decide
  have hparse0 : parseTarHeader (List.replicate 512 0) = none := by decide
  have hr499 : (List.replicate 499 (0 : Nat)).length = 499 := by simp
  have hr512 : (List.replicate 512 (0 : Nat)).length = 512 := by simp
  have hr1024 : (List.replicate 1024 (0 : Nat)).length = 1024 := by simp
  have hL1 : (c6content ++ (List.replicate 499 0 ++ List.replicate 1024 0)).length = 1536 := by
    simp only [List.length_append, List.length_replicate, hlenc]
  have e1 : tarLoop ⟨c6stream, none, [], []⟩ =
      tarLoop ⟨c6content ++ (List.replicate 499 0 ++ List.replicate 1024 0),
        some ⟨c6name, 13, 13, []⟩, [], [TarEvent.openFile c6name]⟩ := by
    rw [show (⟨c6stream, none, [], []⟩ : DecState) =
      ⟨hdr6 ++ (c6content ++ (List.replicate 499 0 ++ List.replicate 1024 0)),
        none, [], []⟩ from rfl]
    rw [loopHeaderC _ _ _ _ hlen6
      (by rw [List.length_append, hlen6, hL1]; omega)]
    rw [hparse6]
    rfl
  have e2 : tarLoop ⟨c6content ++ (List.replicate 499 0 ++ List.replicate 1024 0),
        some ⟨c6name, 13, 13, []⟩, [], [TarEvent.openFile c6name]⟩ =
      tarLoop ⟨List.replicate 1024 0, none, [(c6name, c6content)],
        [TarEvent.openFile c6name, TarEvent.closeFile c6name]⟩ := by
    rw [loopCloseC _ _ _ _ _ _ _ (by omega) (by rw [hL1]; omega) (by rw [hL1]; omega)]
    refine congrArg tarLoop ?_
    rw [List.take_left' hlenc, List.drop_left' hlenc, hL1,
      if_pos (by norm_num : (512 - 13 % 512) % 512 ≤ 1536 - 13),
      List.drop_left' hr499]
    rfl
  have e3 : tarLoop ⟨List.replicate 1024 0, none, [(c6name, c6content)],
        [TarEvent.openFile c6name, TarEvent.closeFile c6name]⟩ =
      tarLoop ⟨List.replicate 512 0, none, [(c6name, c6content)],
        [TarEvent.openFile c6name, TarEvent.closeFile c6name]⟩ := by
    rw [show (List.replicate 1024 (0 : Nat)) = List.replicate 512 0 ++ List.replicate 512 0
      by rw [← List.replicate_add]]
    rw [loopHeaderC _ _ _ _ hr512 (by rw [List.length_append, hr512]; omega)]
    rw [hparse0]
  have e4 : tarLoop ⟨List.replicate 512 0, none, [(c6name, c6content)],
        [TarEvent.openFile c6name, TarEvent.closeFile c6name]⟩ =
      ⟨[], none, [(c6name, c6content)],
        [TarEvent.openFile c6name, TarEvent.closeFile c6name]⟩ := by
    rw [show (List.replicate 512 (0 : Nat)) = List.replicate 512 0 ++ [] from
      (List.append_nil _).symm]
    rw [loopHeaderC _ _ _ _ hr512 (by rw [List.append_nil, hr512]; omega)]
    rw [hparse0]
    exact loopDoneC _ _ _ _ (by decide)
  rw [extract_one, e1, e2, e3, e4]
  rfl

/-- Claim C3 (code evaluated at the failing input): for the truncated
archive whose header declares 100 bytes but whose body holds only 50 bytes,
the decoder raises no error and closes the file at end-of-input, but the
file contains 0 bytes — the 50 received body bytes stay in the accumulator
(the body branch only runs with at least 512 buffered bytes) and are
discarded, contradicting the claimed 50-byte output. -/
theorem C3_truncated_archive_writes_zero_bytes : extract [c3stream] = [([102], [])] := by
  have hlen3 : hdr3.length = 512 := by decide
  have hparse3 : parseTarHeader hdr3 = some ⟨[102], some 100, FileType.file⟩ := by decide
  have hr50 : (List.replicate 50 (65 : Nat)).length = 50 := by simp
  have e1 : tarLoop ⟨c3stream, none, [], []⟩ =
      tarLoop ⟨List.replicate 50 65, some ⟨[102], 100, 100, []⟩, [],
        [TarEvent.openFile [102]]⟩ := by
    rw [show (⟨c3stream, none, [], []⟩ : DecState) =
      ⟨hdr3 ++ List.replicate 50 65, none, [], []⟩ from rfl]
    rw [loopHeaderC _ _ _ _ hlen3 (by rw [List.length_append, hlen3, hr50]; omega)]
    rw [hparse3]
    rfl
  rw [extract_one, e1, loopDoneC _ _ _ _ (by rw [hr50]; omega)]
  rfl

theorem extract_c1_contig :
    extract [c1chunkA ++ c1chunkB] = [([116], List.replicate 520 65), ([117], [66])] := by
  have hlenT : hdrT.length = 512 := by decide
  have hlenU : hdrU.length = 512 := by decide
  have hparseT : parseTarHeader hdrT = some ⟨[116], some 520, FileType.file⟩ := by decide
  have hparseU : parseTarHeader hdrU = some ⟨[117], some 1, FileType.file⟩ := by decide
  have hparse0 : parseTarHeader (List.replicate 512 0) = none := by decide
  have hr520 : (List.replicate 520 (65 : Nat)).length = 520 := by simp
  have hr504 : (List.replicate 504 (0 : Nat)).length = 504 := by simp
  have hr511 : (List.replicate 511 (0 : Nat)).length = 511 := by simp
  have hr512 : (List.replicate 512 (0 : Nat)).length = 512 := by simp
  have h66 : ([66] : List Nat).length = 1 := by decide
  have hXlen : (([66] : List Nat) ++ (List.replicate 511 0 ++ List.replicate 1024 0)).length
      = 1536 := by
    simp only [List.length_append, List.length_replicate, h66]
  have hBody : (List.replicate 520 (65 : Nat) ++ (List.replicate 504 0 ++ (hdrU ++
      ([66] ++ (List.replicate 511 0 ++ List.replicate 1024 0))))).length = 3072 := by
    simp only [List.length_append, List.length_replicate, hlenU, h66]
  have e1 : tarLoop ⟨c1chunkA ++ c1chunkB, none, [], []⟩ =
      tarLoop ⟨List.replicate 520 65 ++ (List.replicate 504 0 ++ (hdrU ++
          ([66] ++ (List.replicate 511 0 ++ List.replicate 1024 0)))),
        some ⟨[116], 520, 520, []⟩, [], [TarEvent.openFile [116]]⟩ := by
    rw [show (⟨c1chunkA ++ c1chunkB, none, [], []⟩ : DecState) =
      ⟨hdrT ++ (List.replicate 520 65 ++ (List.replicate 504 0 ++ (hdrU ++
          ([66] ++ (List.replicate 511 0 ++ List.replicate 1024 0))))), none, [], []⟩ by
        refine congrArg (fun b => (⟨b, none, [], []⟩ : DecState)) ?_
        show (hdrT ++ List.replicate 516 65) ++ (List.replicate 4 65 ++ _) = _
        rw [List.append_assoc, ← List.append_assoc (List.replicate 516 65),
          ← List.replicate_add]]
    rw [loopHeaderC _ _ _ _ hlenT (by rw [List.length_append, hlenT, hBody]; omega)]
    rw [hparseT]
    rfl
  have e2 : tarLoop ⟨List.replicate 520 65 ++ (List.replicate 504 0 ++ (hdrU ++
          ([66] ++ (List.replicate 511 0 ++ List.replicate 1024 0)))),
        some ⟨[116], 520, 520, []⟩, [], [TarEvent.openFile [116]]⟩ =
      tarLoop ⟨hdrU ++ ([66] ++ (List.replicate 511 0 ++ List.replicate 1024 0)),
        none, [([116], List.replicate 520 65)],
        [TarEvent.openFile [116], TarEvent.closeFile [116]]⟩ := by
    rw [loopCloseC _ _ _ _ _ _ _ (by omega) (by rw [hBody]; omega) (by rw [hBody]; omega)]
    refine congrArg tarLoop ?_
    rw [List.take_left' hr520, List.drop_left' hr520, hBody,
      if_pos (by norm_num : (512 - 520 % 512) % 512 ≤ 3072 - 520),
      show (512 - 520 % 512) % 512 = 504 by norm_num,
      List.drop_left' hr504]
    rfl
  have e3 : tarLoop ⟨hdrU ++ ([66] ++ (List.replicate 511 0 ++ List.replicate 1024 0)),
        none, [([116], List.replicate 520 65)],
        [TarEvent.openFile [116], TarEvent.closeFile [116]]⟩ =
      tarLoop ⟨[66] ++ (List.replicate 511 0 ++ List.replicate 1024 0),
        some ⟨[117], 1, 1, []⟩, [([116], List.replicate 520 65)],
        [TarEvent.openFile [116], TarEvent.closeFile [116], TarEvent.openFile [117]]⟩ := by
    rw [loopHeaderC _ _ _ _ hlenU (by rw [List.length_append, hlenU, hXlen]; omega)]
    rw [hparseU]
    rfl
  have e4 : tarLoop ⟨[66] ++ (List.replicate 511 0 ++ List.replicate 1024 0),
        some ⟨[117], 1, 1, []⟩, [([116], List.replicate 520 65)],
        [TarEvent.openFile [116], TarEvent.closeFile [116], TarEvent.openFile [117]]⟩ =
      tarLoop ⟨List.replicate 1024 0,
        none, [([116], List.replicate 520 65), ([117], [66])],
        [TarEvent.openFile [116], TarEvent.closeFile [116], TarEvent.openFile [117],
          TarEvent.closeFile [117]]⟩ := by
    rw [loopCloseC _ _ _ _ _ _ _ (by omega) (by rw [hXlen]; omega) (by rw [hXlen]; omega)]
    refine congrArg tarLoop ?_
    rw [List.take_left' h66, List.drop_left' h66, hXlen,
      if_pos (by norm_num : (512 - 1 % 512) % 512 ≤ 1536 - 1),
      show (512 - 1 % 512) % 512 = 511 by norm_num,
      List.drop_left' hr511]
    rfl
  have e5 : tarLoop ⟨List.replicate 1024 0,
        none, [([116], List.replicate 520 65), ([117], [66])],
        [TarEvent.openFile [116], TarEvent.closeFile [116], TarEvent.openFile [117],
          TarEvent.closeFile [117]]⟩ =
      tarLoop ⟨List.replicate 512 0,
        none, [([116], List.replicate 520 65), ([117], [66])],
        [TarEvent.openFile [116], TarEvent.closeFile [116], TarEvent.openFile [117],
          TarEvent.closeFile [117]]⟩ := by
    rw [show (List.replicate 1024 (0 : Nat)) = List.replicate 512 0 ++ List.replicate 512 0
      by rw [← List.replicate_add]]
    rw [loopHeaderC _ _ _ _ hr512 (by rw [List.length_append, hr512]; omega)]
    rw [hparse0]
  have e6 : tarLoop ⟨List.replicate 512 0,
        none, [([116], List.replicate 520 65), ([117], [66])],
        [TarEvent.openFile [116], TarEvent.closeFile [116], TarEvent.openFile [117],
          TarEvent.closeFile [117]]⟩ =
      ⟨[], none, [([116], List.replicate 520 65), ([117], [66])],
        [TarEvent.openFile [116], TarEvent.closeFile [116], TarEvent.openFile [117],
          TarEvent.closeFile [117]]⟩ := by
    rw [show (List.replicate 512 (0 : Nat)) = List.replicate 512 0 ++ [] from
      (List.append_nil _).symm]
    rw [loopHeaderC _ _ _ _ hr512 (by rw [List.append_nil, hr512]; omega)]
    rw [hparse0]
    exact loopDoneC _ _ _ _ (by decide)
  rw [extract_one, e1, e2, e3, e4, e5, e6]
  rfl

theorem extract_c1_split :
    extract [c1chunkA, c1chunkB] = [([116], List.replicate 520 65)] := by
  have hlenT : hdrT.length = 512 := by decide
  have hlenU : hdrU.length = 512 := by decide
  have hparseT : parseTarHeader hdrT = some ⟨[116], some 520, FileType.file⟩ := by decide
  have hparseM : parseTarHeader (List.drop 4 hdrU ++ [66, 0, 0, 0]) = none := by decide
  have hparse0 : parseTarHeader (List.replicate 512 0) = none := by decide
  have hr4 : (List.replicate 4 (65 : Nat)).length = 4 := by simp
  have hr516 : (List.replicate 516 (65 : Nat)).length = 516 := by simp
  have hr504 : (List.replicate 504 (0 : Nat)).length = 504 := by simp
  have hr512 : (List.replicate 512 (0 : Nat)).length = 512 := by simp
  have hBlen : c1chunkB.length = 2556 := by
    show (List.replicate 4 65 ++ (List.replicate 504 0 ++ (hdrU ++
      ([66] ++ (List.replicate 511 0 ++ List.replicate 1024 0))))).length = 2556
    simp only [List.length_append, List.length_replicate, hlenU, List.length_cons,
      List.length_nil]
  have e1 : tarLoop ⟨c1chunkA, none, [], []⟩ =
      tarLoop ⟨List.replicate 516 65, some ⟨[116], 520, 520, []⟩, [],
        [TarEvent.openFile [116]]⟩ := by
    rw [show (⟨c1chunkA, none, [], []⟩ : DecState) =
      ⟨hdrT ++ List.replicate 516 65, none, [], []⟩ from rfl]
    rw [loopHeaderC _ _ _ _ hlenT (by rw [List.length_append, hlenT, hr516]; omega)]
    rw [hparseT]
    rfl
  have e2 : tarLoop ⟨List.replicate 516 65, some ⟨[116], 520, 520, []⟩, [],
        [TarEvent.openFile [116]]⟩ =
      ⟨[], some ⟨[116], 520, 4, List.replicate 516 65⟩, [], [TarEvent.openFile [116]]⟩ := by
    rw [loopStopC _ _ _ _ _ _ _ (by rw [hr516]; omega) (by rw [hr516]; omega)]
    rfl
  have e3 : tarLoop ⟨c1chunkB, some ⟨[116], 520, 4, List.replicate 516 65⟩, [],
        [TarEvent.openFile [116]]⟩ =
      tarLoop ⟨List.drop 4 hdrU ++ ([66] ++ (List.replicate 511 0 ++ List.replicate 1024 0)),
        none, [([116], List.replicate 520 65)],
        [TarEvent.openFile [116], TarEvent.closeFile [116]]⟩ := by
    rw [loopCloseC _ _ _ _ _ _ _ (by omega) (by rw [hBlen]; omega) (by rw [hBlen]; omega)]
    refine congrArg tarLoop ?_
    rw [hBlen, if_pos (by norm_num : (512 - 4 % 512) % 512 ≤ 2556 - 4),
      show (512 - 4 % 512) % 512 = 508 by norm_num]
    rw [show c1chunkB = List.replicate 4 65 ++ (List.replicate 504 0 ++ (hdrU ++
      ([66] ++ (List.replicate 511 0 ++ List.replicate 1024 0)))) from rfl]
    rw [List.drop_left' hr4, List.take_left' hr4]
    rw [show List.replicate 516 65 ++ List.replicate 4 65 = List.replicate 520 (65 : Nat)
      by rw [← List.replicate_add]]
    rw [List.drop_append_eq_append_drop, List.drop_replicate, hr504,
      show ((504 : Nat) - 508) = 0 from by norm_num,
      show ((508 : Nat) - 504) = 4 from by norm_num,
      List.replicate_zero, List.nil_append]
    rw [List.drop_append_eq_append_drop, hlenU,
      show ((4 : Nat) - 512) = 0 from by norm_num, List.drop_zero]
    rfl
  have hsplit : List.drop 4 hdrU ++ ([66] ++ (List.replicate 511 0 ++ List.replicate 1024 0)) =
      (List.drop 4 hdrU ++ [66, 0, 0, 0]) ++
        (List.replicate 508 0 ++ List.replicate 1024 0) := by
    rw [List.append_assoc]
    refine congrArg (fun t => List.drop 4 hdrU ++ t) ?_
    rw [show (List.replicate 511 (0 : Nat)) = List.replicate 3 0 ++ List.replicate 508 0
      by rw [← List.replicate_add]]
    rw [show ([66, 0, 0, 0] : List Nat) = [66] ++ List.replicate 3 0 from rfl]
    rw [List.append_assoc, List.append_assoc]
  have hlenM : (List.drop 4 hdrU ++ [66, 0, 0, 0]).length = 512 := by
    rw [List.length_append, List.length_drop, hlenU]
    decide
  have e4 : tarLoop ⟨List.drop 4 hdrU ++ ([66] ++ (List.replicate 511 0 ++
        List.replicate 1024 0)),
        none, [([116], List.replicate 520 65)],
        [TarEvent.openFile [116], TarEvent.closeFile [116]]⟩ =
      tarLoop ⟨List.replicate 508 0 ++ List.replicate 1024 0,
        none, [([116], List.replicate 520 65)],
        [TarEvent.openFile [116], TarEvent.closeFile [116]]⟩ := by
    rw [hsplit]
    rw [loopHeaderC _ _ _ _ hlenM (by rw [List.length_append, hlenM]; omega)]
    rw [hparseM]
  have e5 : tarLoop ⟨List.replicate 508 0 ++ List.replicate 1024 0,
        none, [([116], List.replicate 520 65)],
        [TarEvent.openFile [116], TarEvent.closeFile [116]]⟩ =
      tarLoop ⟨List.replicate 1020 0,
        none, [([116], List.replicate 520 65)],
        [TarEvent.openFile [116], TarEvent.closeFile [116]]⟩ := by
    rw [show List.replicate 508 (0 : Nat) ++ List.replicate 1024 0 =
      List.replicate 512 0 ++ List.replicate 1020 0
      by rw [← List.replicate_add, ← List.replicate_add]]
    rw [loopHeaderC _ _ _ _ hr512 (by rw [List.length_append, hr512]; omega)]
    rw [hparse0]
  have e6 : tarLoop ⟨List.replicate 1020 0,
        none, [([116], List.replicate 520 65)],
        [TarEvent.openFile [116], TarEvent.closeFile [116]]⟩ =
      ⟨List.replicate 508 0,
        none, [([116], List.replicate 520 65)],
        [TarEvent.openFile [116], TarEvent.closeFile [116]]⟩ := by
    rw [show List.replicate 1020 (0 : Nat) = List.replicate 512 0 ++ List.replicate 508 0
      by rw [← List.replicate_add]]
    rw [loopHeaderC _ _ _ _ hr512 (by rw [List.length_append, hr512]; omega)]
    rw [hparse0]
    exact loopDoneC _ _ _ _ (by simp)
  rw [extract_two, e1, e2]
  show (eofFinish (tarLoop ⟨[] ++ c1chunkB, some ⟨[116], 520, 4, List.replicate 516 65⟩, [],
    [TarEvent.openFile [116]]⟩)).files = _
  rw [List.nil_append, e3, e4, e5, e6]
  rfl

/-- Claim C1 (counterexample): splitting the well-formed two-file archive
`c1chunkA ++ c1chunkB` at the misaligned boundary 1028 changes the output:
the contiguous delivery extracts both files, the two-chunk delivery skips
504 padding plus 4 header bytes (padding is computed from the 4-byte final
write) and loses the second file. -/
theorem C1_counterexample :
    extract [c1chunkA, c1chunkB] ≠ extract [c1chunkA ++ c1chunkB] := by
  rw [extract_c1_split, extract_c1_contig]
  simp

/-- Claim C2 (code evaluated at the failing input): completing a 520-byte
file whose last 4 body bytes arrive in a later chunk, the decoder discards
`(512 - 4 % 512) % 512 = 508` bytes — computed from the 4 bytes written in
the final chunk — leaving 508 buffered bytes, whereas the total size 520
prescribes discarding `(512 - 520 % 512) % 512 = 504` bytes, which would
leave 512. -/
theorem C2_padding_from_final_write :
    tarBodyStep c2state c2cf = StepResult.next
      ⟨List.replicate 508 0, none, [([116], List.replicate 520 65)],
        [TarEvent.openFile [116], TarEvent.closeFile [116]]⟩ ∧
    (512 - c2cf.declared % 512) % 512 = 504 ∧
    ¬ ((List.replicate 508 (0 : Nat)).length =
        c2state.buffer.length - c2cf.size - (512 - c2cf.declared % 512) % 512) := by
  refine ⟨by decide, by decide, by decide⟩

theorem indexOfZero_of_first (l : List Nat) :
    ∀ k, k < l.length → l.getD k 1 = 0 → (∀ j, j < k → l.getD j 1 ≠ 0) →
      indexOfZero l = some k := by
  induction l with
  | nil => intro k hk; simp at hk
  | cons b rest ih =>
    intro k hk hzero hbefore
    cases k with
    | zero =>
      simp only [List.getD_cons_zero] at hzero
      simp [indexOfZero, hzero]
    | succ k' =>
      have hb : b ≠ 0 := by
        have := hbefore 0 (Nat.succ_pos _)
        simpa using this
      have hrest := ih k' (by simpa using hk) (by simpa using hzero)
        (fun j hj => by
          have := hbefore (j + 1) (by omega)
          simpa using this)
      simp [indexOfZero, hb, hrest]

theorem indexOfZero_of_none (l : List Nat) (h : ∀ j, j < l.length → l.getD j 1 ≠ 0) :
    indexOfZero l = none := by
  induction l with
  | nil => rfl
  | cons b rest ih =>
    have hb : b ≠ 0 := by simpa using h 0 (Nat.succ_pos _)
    have hrest := ih (fun j hj => by
      have := h (j + 1) (by simpa using Nat.succ_lt_succ hj)
      simpa using this)
    simp [indexOfZero, hb, hrest]

theorem indexOfZero_of_head (l : List Nat) (hne : l ≠ []) (h : l.getD 0 1 = 0) :
    indexOfZero l = some 0 := by
  cases l with
  | nil => exact absurd rfl hne
  | cons b rest =>
    simp only [List.getD_cons_zero] at h
    simp [indexOfZero, h]

/-- Claim C5 (amended): the parsed name is the bytes before the first null
byte when that null occurs at a positive offset; when the first 100 bytes
contain no null byte, or the byte at offset 0 is itself null, the full 100
bytes are taken (the `nameEnd > 0` guard, so a leading null does not give
an empty name). -/
theorem C5_amended (block : List Nat) (hlen : block.length = 512)
    (hvalid : (block.take 100).any (fun b => b != 0) = true) :
    ∃ h, parseTarHeader block = some h ∧
      (∀ k, 0 < k → k < 100 → (block.take 100).getD k 1 = 0 →
        (∀ j, j < k → (block.take 100).getD j 1 ≠ 0) → h.name = block.take k) ∧
      (((∀ j, j < 100 → (block.take 100).getD j 1 ≠ 0) ∨ (block.take 100).getD 0 1 = 0) →
        h.name = block.take 100) := by
  have hnl : (block.take 100).length = 100 := by
    rw [List.length_take]; omega
  obtain ⟨sz, tp, hp⟩ : ∃ sz tp, parseTarHeader block = some
      ⟨(block.take 100).take
        (match indexOfZero (block.take 100) with
          | some k => if 0 < k then k else 100
          | none => 100), sz, tp⟩ :=
    ⟨(if ((jsTrim ((block.drop 124).take 12)).filter (fun b => b != 0)).isEmpty
        then some (0 : Int)
        else parseIntOctal ((jsTrim ((block.drop 124).take 12)).filter (fun b => b != 0))),
      (if block.getD 156 0 = 48 ∨ block.getD 156 0 = 0
        then FileType.file else FileType.directory),
      by
        unfold parseTarHeader
        rw [if_neg (by omega), if_neg (by simp [hvalid])]⟩
  refine ⟨_, hp, ?_, ?_⟩
  · intro k hk0 hk100 hz hbef
    have hidx : indexOfZero (block.take 100) = some k :=
      indexOfZero_of_first _ k (by omega) hz hbef
    show (block.take 100).take _ = _
    rw [hidx]
    show (block.take 100).take (if 0 < k then k else 100) = _
    rw [if_pos hk0, List.take_take]
    congr 1
    omega
  · intro hcase
    show (block.take 100).take _ = _
    rcases hcase with hnone | hzero
    · have hidx : indexOfZero (block.take 100) = none :=
        indexOfZero_of_none _ (fun j hj => hnone j (by omega))
      rw [hidx]
      show (block.take 100).take 100 = _
      rw [List.take_take, min_self]
    · have hidx : indexOfZero (block.take 100) = some 0 :=
        indexOfZero_of_head _ (by
          intro hnil
          rw [hnil] at hnl
          simp at hnl) hzero
      rw [hidx]
      show (block.take 100).take (if 0 < 0 then 0 else 100) = _
      rw [if_neg (lt_irrefl 0), List.take_take, min_self]

theorem isWsByte_false_of_digit (b : Nat) (h : 48 ≤ b) : isWsByte b = false := by
  simp only [isWsByte, Bool.or_eq_false_iff, decide_eq_false_iff_not]
  omega

theorem dropWhile_append_of_all {p : Nat → Bool} (l r : List Nat) (h : ∀ x ∈ l, p x = true) :
    List.dropWhile p (l ++ r) = List.dropWhile p r := by
  induction l with
  | nil => simp
  | cons a t ih =>
    have ha := h a (List.mem_cons_self a t)
    simp only [List.cons_append, List.dropWhile_cons, ha, if_true]
    exact ih (fun x hx => h x (List.mem_cons_of_mem _ hx))

theorem takeWhile_append_of_all {p : Nat → Bool} (l r : List Nat) (h : ∀ x ∈ l, p x = true) :
    List.takeWhile p (l ++ r) = l ++ List.takeWhile p r := by
  induction l with
  | nil => simp
  | cons a t ih =>
    have ha := h a (List.mem_cons_self a t)
    simp only [List.cons_append, List.takeWhile_cons, ha, if_true]
    rw [ih (fun x hx => h x (List.mem_cons_of_mem _ hx))]

theorem takeWhile_eq_nil_of_all {p : Nat → Bool} (r : List Nat) (h : ∀ x ∈ r, p x = false) :
    List.takeWhile p r = [] := by
  cases r with
  | nil => rfl
  | cons a t =>
    have := h a (List.mem_cons_self a t)
    simp [List.takeWhile_cons, this]

theorem rtrimWs_keep (ds : List Nat) (hds : ds ≠ []) (hdig : ∀ x ∈ ds, 48 ≤ x ∧ x ≤ 55) :
    ∀ pad, (∀ x ∈ pad, x = 0 ∨ x = 32) →
      ∃ pad2, ((ds ++ pad).reverse.dropWhile isWsByte).reverse = ds ++ pad2 ∧
        ∀ x ∈ pad2, x = 0 ∨ x = 32 := by
  intro pad
  induction pad using List.reverseRecOn with
  | nil =>
    intro _
    refine ⟨[], ?_, by simp⟩
    rw [List.append_nil]
    have hrne : ds.reverse ≠ [] := by simpa using hds
    obtain ⟨a, t, hat⟩ := List.exists_cons_of_ne_nil hrne
    have ha : isWsByte a = false := by
      have hamem : a ∈ ds := by
        rw [← List.mem_reverse, hat]
        exact List.mem_cons_self a t
      exact isWsByte_false_of_digit a (hdig a hamem).1
    rw [hat, List.dropWhile_cons, ha]
    simp only [Bool.false_eq_true, if_false]
    rw [← hat, List.reverse_reverse]
  | append_singleton pad0 x ih =>
    intro hmem
    have hrw : (ds ++ (pad0 ++ [x])).reverse = x :: (ds ++ pad0).reverse := by
      rw [← List.append_assoc, List.reverse_append]
      rfl
    rcases hmem x (by simp) with h0 | h32
    · refine ⟨pad0 ++ [x], ?_, fun y hy => hmem y hy⟩
      rw [hrw, List.dropWhile_cons, show isWsByte x = false by rw [h0]; decide]
      simp only [Bool.false_eq_true, if_false]
      rw [List.reverse_cons, List.reverse_reverse, List.append_assoc]
    · obtain ⟨pad2, hpad2, hmem2⟩ := ih (fun y hy => hmem y (by simp [hy]))
      refine ⟨pad2, ?_, hmem2⟩
      rw [hrw, List.dropWhile_cons, show isWsByte x = true by rw [h32]; decide]
      simp only [if_true]
      exact hpad2

theorem dropWhile_eq_self_of_zeros (l : List Nat) (h : ∀ x ∈ l, x = 0) :
    List.dropWhile isWsByte l = l := by
  cases l with
  | nil => rfl
  | cons a t =>
    have ha : isWsByte a = false := by
      rw [h a (List.mem_cons_self a t)]; decide
    simp [List.dropWhile_cons, ha]

theorem dropWhile_eq_self_of_digits_head (ds tail : List Nat) (hds : ds ≠ [])
    (hdig : ∀ x ∈ ds, 48 ≤ x ∧ x ≤ 55) :
    List.dropWhile isWsByte (ds ++ tail) = ds ++ tail := by
  obtain ⟨d, t, hdt⟩ := List.exists_cons_of_ne_nil hds
  have hd : isWsByte d = false :=
    isWsByte_false_of_digit d (hdig d (by rw [hdt]; exact List.mem_cons_self d t)).1
  rw [hdt, List.cons_append, List.dropWhile_cons, hd]
  simp only [Bool.false_eq_true, if_false]

theorem parseIntOctal_digits (ds tail : List Nat) (hds : ds ≠ [])
    (hdig : ∀ x ∈ ds, 48 ≤ x ∧ x ≤ 55) (htail : ∀ x ∈ tail, x = 32) :
    parseIntOctal (ds ++ tail) = some ((octValue ds : Nat) : Int) := by
  obtain ⟨d, t, hdt⟩ := List.exists_cons_of_ne_nil hds
  have hd48 := (hdig d (by rw [hdt]; exact List.mem_cons_self d t)).1
  have hoct : octRun (ds ++ tail) = some (octValue ds) := by
    simp only [octRun]
    rw [takeWhile_append_of_all ds tail (fun x hx => by
        have := hdig x hx
        simp only [Bool.and_eq_true, decide_eq_true_eq]
        omega),
      takeWhile_eq_nil_of_all tail (fun x hx => by
        rw [htail x hx]; decide),
      List.append_nil,
      if_neg (by rw [List.isEmpty_iff]; exact hds)]
  unfold parseIntOctal
  rw [dropWhile_eq_self_of_digits_head ds tail hds hdig, hdt, List.cons_append]
  change (if d = 43 then (octRun (t ++ tail)).map (fun n => Int.ofNat n)
    else if d = 45 then (octRun (t ++ tail)).map (fun n => -(Int.ofNat n))
    else (octRun (d :: (t ++ tail))).map (fun n => Int.ofNat n)) = _
  rw [if_neg (by omega), if_neg (by omega), ← List.cons_append, ← hdt, hoct,
    Option.map_some']
  rfl

theorem parseIntSize_zeros (sp zs : List Nat) (hsp : ∀ x ∈ sp, x = 32)
    (hzs : ∀ x ∈ zs, x = 0) :
    (jsTrim (sp ++ zs)).filter (fun b => b != 0) = [] := by
  have h1 : List.dropWhile isWsByte (sp ++ zs) = zs := by
    rw [dropWhile_append_of_all sp zs (fun x hx => by rw [hsp x hx]; decide)]
    exact dropWhile_eq_self_of_zeros zs hzs
  have h2 : List.dropWhile isWsByte zs.reverse = zs.reverse :=
    dropWhile_eq_self_of_zeros zs.reverse (fun x hx => hzs x (List.mem_reverse.mp hx))
  unfold jsTrim
  rw [h1, h2, List.reverse_reverse]
  rw [List.filter_eq_nil_iff.mpr]
  intro a ha
  rw [hzs a ha]
  decide

/-- Claim C4 (amended): the parsed size equals the denoted octal value for a
well-formed size field (optional leading spaces, a non-empty octal digit
run, then NUL/space padding), and is 0 for a field of spaces followed by
NULs (in particular for an empty field); a non-empty field with no leading
octal numeral instead parses to NaN (`none`), not 0. -/
theorem C4_amended (block : List Nat) (hlen : block.length = 512)
    (hvalid : (block.take 100).any (fun b => b != 0) = true) :
    ∃ h, parseTarHeader block = some h ∧
      (∀ sp ds pad, (block.drop 124).take 12 = sp ++ (ds ++ pad) → ds ≠ [] →
        (∀ x ∈ sp, x = 32) → (∀ x ∈ ds, 48 ≤ x ∧ x ≤ 55) → (∀ x ∈ pad, x = 0 ∨ x = 32) →
        h.size = some ((octValue ds : Nat) : Int) ∧ (0 : Int) ≤ ((octValue ds : Nat) : Int)) ∧
      (∀ sp zs, (block.drop 124).take 12 = sp ++ zs →
        (∀ x ∈ sp, x = 32) → (∀ x ∈ zs, x = 0) →
        h.size = some 0) := by
  obtain ⟨nm, tp, hp⟩ : ∃ nm tp, parseTarHeader block = some
      ⟨nm, (if ((jsTrim ((block.drop 124).take 12)).filter (fun b => b != 0)).isEmpty
        then some (0 : Int)
        else parseIntOctal ((jsTrim ((block.drop 124).take 12)).filter (fun b => b != 0))),
        tp⟩ :=
    ⟨(block.take 100).take
        (match indexOfZero (block.take 100) with
          | some k => if 0 < k then k else 100
          | none => 100),
      (if block.getD 156 0 = 48 ∨ block.getD 156 0 = 0
        then FileType.file else FileType.directory),
      by
        unfold parseTarHeader
        rw [if_neg (by omega), if_neg (by simp [hvalid])]⟩
  refine ⟨_, hp, ?_, ?_⟩
  · intro sp ds pad hfield hds hsp hdig hpad
    obtain ⟨pad2, hpad2, hmem2⟩ := rtrimWs_keep ds hds hdig pad hpad
    have htrim : jsTrim ((block.drop 124).take 12) = ds ++ pad2 := by
      unfold jsTrim
      rw [hfield, dropWhile_append_of_all sp _ (fun x hx => by rw [hsp x hx]; decide),
        dropWhile_eq_self_of_digits_head ds pad hds hdig, hpad2]
    have hfilter : (jsTrim ((block.drop 124).take 12)).filter (fun b => b != 0) =
        ds ++ pad2.filter (fun b => b != 0) := by
      rw [htrim, List.filter_append, List.filter_eq_self.mpr]
      intro a ha
      have := (hdig a ha).1
      simp only [bne_iff_ne, ne_eq]
      omega
    have hpad3 : ∀ x ∈ pad2.filter (fun b => b != 0), x = 32 := by
      intro x hx
      rw [List.mem_filter] at hx
      rcases hmem2 x hx.1 with h0 | h32
      · rw [h0] at hx
        simp at hx
      · exact h32
    have hne : ds ++ pad2.filter (fun b => b != 0) ≠ [] := by
      intro hnil
      rw [List.append_eq_nil] at hnil
      exact hds hnil.1
    refine ⟨?_, Int.natCast_nonneg _⟩
    show (if ((jsTrim ((block.drop 124).take 12)).filter (fun b => b != 0)).isEmpty
      then some (0 : Int)
      else parseIntOctal ((jsTrim ((block.drop 124).take 12)).filter (fun b => b != 0))) = _
    rw [hfilter, if_neg (by rw [List.isEmpty_iff]; exact hne)]
    exact parseIntOctal_digits ds _ hds hdig hpad3
  · intro sp zs hfield hsp hzs
    show (if ((jsTrim ((block.drop 124).take 12)).filter (fun b => b != 0)).isEmpty
      then some (0 : Int)
      else parseIntOctal ((jsTrim ((block.drop 124).take 12)).filter (fun b => b != 0))) = _
    rw [hfield, parseIntSize_zeros sp zs hsp hzs]
    rfl

/-- Claim C4 (counterexample): a header block whose 12-byte size field is
"zzzzzzzzzzzz" — non-empty but not a parsable octal integer string — parses
to size `none` (JavaScript `NaN`), not 0 as the claim states. -/
theorem C4_counterexample :
    parseTarHeader c4block = some ⟨[97], none, FileType.file⟩ ∧
    (none : Option Int) ≠ some 0 :=
  ⟨by decide, by decide⟩

/-- Witness for the amended claim C4 at the concrete block `c4wfBlock`,
whose size field is the well-formed octal string "000000000015". -/
theorem C4_witness :
    c4wfBlock.length = 512 ∧ (c4wfBlock.take 100).any (fun b => b != 0) = true ∧
    octValue (List.replicate 10 48 ++ [49, 53]) = 13 ∧
    (∃ h, parseTarHeader c4wfBlock = some h ∧
      h.size = some ((octValue (List.replicate 10 48 ++ [49, 53]) : Nat) : Int)) := by
  refine ⟨by decide, by decide, by decide, ?_⟩
  obtain ⟨h, hp, hA, hB⟩ := C4_amended c4wfBlock (by decide) (by decide)
  exact ⟨h, hp, (hA [] (List.replicate 10 48 ++ [49, 53]) []
    (by decide) (by decide) (by decide) (by decide) (by decide)).1⟩

/-- Claim C5 (counterexample): a header block whose name field starts with
a null byte followed by the non-zero byte 65 parses to the full 100-byte
name (beginning with that null byte), not to the empty name the claim
states. -/
theorem C5_counterexample :
    parseTarHeader c5block = some ⟨[0, 65] ++ List.replicate 98 0, some 0, FileType.file⟩ ∧
    ([0, 65] ++ List.replicate 98 0 : List Nat) ≠ [] :=
  ⟨by decide, by decide⟩

/-- Witness for the amended claim C5 at the concrete block `hdr3`, whose
first null byte sits at the positive offset 1. -/
theorem C5_witness :
    hdr3.length = 512 ∧ (hdr3.take 100).any (fun b => b != 0) = true ∧
    (∃ h, parseTarHeader hdr3 = some h ∧ h.name = hdr3.take 1) := by
  refine ⟨by decide, by decide, ?_⟩
  obtain ⟨h, hp, hA, hB⟩ := C5_amended hdr3 (by decide) (by decide)
  exact ⟨h, hp, hA 1 (by decide) (by decide) (by decide) (by decide)⟩

theorem evOk_append (l1 l2 : List TarEvent) (f : Bool) :
    evOk (l1 ++ l2) f = (evOk l1 f && evOk l2 (endFlag l1 f)) := by
  induction l1 generalizing f with
  | nil => simp [evOk, endFlag]
  | cons e t ih => cases e <;> simp [evOk, endFlag, ih, Bool.and_assoc]

theorem endFlag_append (l1 l2 : List TarEvent) (f : Bool) :
    endFlag (l1 ++ l2) f = endFlag l2 (endFlag l1 f) := by
  induction l1 generalizing f with
  | nil => rfl
  | cons e t ih => cases e <;> simp [endFlag, ih]

theorem headerStep_inv (s : DecState) (hcf : s.currentFile = none)
    (h1 : evOk s.events false = true) (h2 : endFlag s.events false = s.currentFile.isSome) :
    evOk (tarHeaderStep s).events false = true ∧
      endFlag (tarHeaderStep s).events false = (tarHeaderStep s).currentFile.isSome := by
  rw [hcf] at h2
  simp only [Option.isSome_none] at h2
  unfold tarHeaderStep
  split
  · refine ⟨h1, ?_⟩
    show endFlag s.events false = s.currentFile.isSome
    rw [hcf]
    simpa using h2
  · split
    · refine ⟨?_, ?_⟩
      · show evOk (s.events ++ [TarEvent.openFile _]) false = true
        rw [evOk_append, h1, h2]
        rfl
      · show endFlag (s.events ++ [TarEvent.openFile _]) false = true
        rw [endFlag_append, h2]
        rfl
    · refine ⟨h1, ?_⟩
      show endFlag s.events false = s.currentFile.isSome
      rw [hcf]
      simpa using h2

theorem bodyStep_inv (s : DecState) (cf : OpenFile) (s' : DecState)
    (hcf : s.currentFile = some cf)
    (h1 : evOk s.events false = true) (h2 : endFlag s.events false = s.currentFile.isSome)
    (hstep : tarBodyStep s cf = StepResult.next s' ∨ tarBodyStep s cf = StepResult.stop s') :
    evOk s'.events false = true ∧ endFlag s'.events false = s'.currentFile.isSome := by
  rw [hcf] at h2
  simp only [Option.isSome_some] at h2
  have hmain : ∀ r, tarBodyStep s cf = r →
      (∀ t, r = StepResult.next t ∨ r = StepResult.stop t →
        evOk t.events false = true ∧ endFlag t.events false = t.currentFile.isSome) := by
    intro r hr
    simp only [tarBodyStep] at hr
    repeat' split at hr
    all_goals {
      subst hr
      intro t ht
      rcases ht with ht | ht <;> cases ht
      all_goals first
        | exact ⟨h1, by simpa using h2⟩
        | exact ⟨by rw [evOk_append, h1, h2]; rfl, by rw [endFlag_append, h2]; rfl⟩ }
  rcases hstep with hstep | hstep
  · exact hmain _ rfl s' (by rw [hstep]; left; rfl)
  · exact hmain _ rfl s' (by rw [hstep]; right; rfl)

theorem tarLoop_inv (s : DecState)
    (h1 : evOk s.events false = true) (h2 : endFlag s.events false = s.currentFile.isSome) :
    evOk (tarLoop s).events false = true ∧
      endFlag (tarLoop s).events false = (tarLoop s).currentFile.isSome := by
  have H : ∀ n s, stMeasure s ≤ n →
      evOk s.events false = true → endFlag s.events false = s.currentFile.isSome →
      evOk (tarLoop s).events false = true ∧
        endFlag (tarLoop s).events false = (tarLoop s).currentFile.isSome := by
    intro n
    induction n with
    | zero =>
      intro s hle h1 h2
      have hb : s.buffer.length < 512 := by unfold stMeasure at hle; omega
      rw [tarLoop_done s hb]
      exact ⟨h1, h2⟩
    | succ n ih =>
      intro s hle h1 h2
      by_cases hb : s.buffer.length < 512
      · rw [tarLoop_done s hb]
        exact ⟨h1, h2⟩
      · rw [tarLoop_eq]
        cases hcf : s.currentFile with
        | none =>
          simp only [if_neg hb, hcf]
          have hm := headerStep_measure s hb
          obtain ⟨g1, g2⟩ := headerStep_inv s hcf h1 h2
          exact ih (tarHeaderStep s) (by omega) g1 g2
        | some cf =>
          have hms : stMeasure s = 2 * s.buffer.length + 1 := by
            unfold stMeasure; rw [hcf]; simp
          cases hstep : tarBodyStep s cf with
          | next s' =>
            simp only [if_neg hb, hcf, hstep]
            have hm := bodyStep_next_measure s cf s' hb hstep
            obtain ⟨g1, g2⟩ := bodyStep_inv s cf s' hcf h1 h2 (Or.inl hstep)
            exact ih s' (by omega) g1 g2
          | stop s' =>
            simp only [if_neg hb, hcf, hstep]
            exact bodyStep_inv s cf s' hcf h1 h2 (Or.inr hstep)
  exact H (stMeasure s) s le_rfl h1 h2

theorem runChunks_inv (chunks : List (List Nat)) :
    evOk (runChunks chunks).events false = true ∧
      endFlag (runChunks chunks).events false = (runChunks chunks).currentFile.isSome := by
  have H : ∀ (cs : List (List Nat)) (s : DecState), evOk s.events false = true →
      endFlag s.events false = s.currentFile.isSome →
      evOk (cs.foldl processChunk s).events false = true ∧
        endFlag (cs.foldl processChunk s).events false =
          (cs.foldl processChunk s).currentFile.isSome := by
    intro cs
    induction cs with
    | nil => intro s h1 h2; exact ⟨h1, h2⟩
    | cons c rest ih =>
      intro s h1 h2
      have hstep := tarLoop_inv { s with buffer := s.buffer ++ c } h1 h2
      exact ih _ hstep.1 hstep.2
  exact H chunks initState (by decide) (by decide)

/-- Claim C9: for every input chunk sequence, the decoder's open/close call
trace is well bracketed — an output stream is opened only when no file is
current and closed only when one is, so at most one file is ever open — and
every opened stream is closed by end-of-input. -/
theorem C9_trace_well_bracketed (chunks : List (List Nat)) :
    evOk (extractEvents chunks) false = true ∧ endFlag (extractEvents chunks) false = false := by
  obtain ⟨h1, h2⟩ := runChunks_inv chunks
  unfold extractEvents eofFinish
  cases hcf : (runChunks chunks).currentFile with
  | none =>
    rw [hcf] at h2
    simp only [Option.isSome_none] at h2
    exact ⟨h1, h2⟩
  | some cf =>
    rw [hcf] at h2
    simp only [Option.isSome_some] at h2
    constructor
    · rw [evOk_append, h1, h2]
      rfl
    · rw [endFlag_append, h2]
      rfl

theorem sizeToNat_pos (o : Option Int) (h : sizeIsPos o = true) : 0 < sizeToNat o := by
  cases o with
  | none => simp [sizeIsPos] at h
  | some n =>
    simp only [sizeIsPos, decide_eq_true_eq] at h
    simp only [sizeToNat]
    omega

theorem take512_len (a : List Nat) (h : 512 ≤ a.length) : (a.take 512).length = 512 := by
  rw [List.length_take]
  omega

theorem drop_append_big (a b : List Nat) (k : Nat) (h : k ≤ a.length) :
    (a ++ b).drop k = a.drop k ++ b := by
  rw [List.drop_append_eq_append_drop, Nat.sub_eq_zero_of_le h, List.drop_zero]

theorem take_append_small (a b : List Nat) (k : Nat) (h : k ≤ a.length) :
    (a ++ b).take k = a.take k := by
  rw [List.take_append_eq_append_take, Nat.sub_eq_zero_of_le h, List.take_zero,
    List.append_nil]

theorem aligned_absorb : ∀ (n : Nat) (a b : List Nat) (cf : Option OpenFile)
    (fs : List (List Nat × List Nat)) (ev : List TarEvent),
    a.length = n → a.length % 512 = 0 → b.length % 512 = 0 →
    (∀ c, cf = some c → 0 < c.size) →
    (tarLoop ⟨a, cf, fs, ev⟩).buffer = [] ∧
    (∀ c, (tarLoop ⟨a, cf, fs, ev⟩).currentFile = some c → 0 < c.size) ∧
    tarLoop ⟨a ++ b, cf, fs, ev⟩ =
      tarLoop ⟨b, (tarLoop ⟨a, cf, fs, ev⟩).currentFile, (tarLoop ⟨a, cf, fs, ev⟩).files,
        (tarLoop ⟨a, cf, fs, ev⟩).events⟩ := by
  intro n
  induction n using Nat.strong_induction_on with
  | _ n ih =>
    intro a b cf fs ev hn ha hb hwf
    by_cases hnil : a = []
    · subst hnil
      rw [tarLoop_done ⟨[], cf, fs, ev⟩ (by simp)]
      refine ⟨rfl, hwf, ?_⟩
      rw [List.nil_append]
    · have h512 : 512 ≤ a.length := by
        have : a.length ≠ 0 := fun h => hnil (List.eq_nil_of_length_eq_zero h)
        omega
      have key : ∀ (a2 : List Nat) (cf2 : Option OpenFile) (fs2 : List (List Nat × List Nat))
          (ev2 : List TarEvent),
          a2.length < n → a2.length % 512 = 0 →
          (∀ c, cf2 = some c → 0 < c.size) →
          tarLoop ⟨a ++ b, cf, fs, ev⟩ = tarLoop ⟨a2 ++ b, cf2, fs2, ev2⟩ →
          tarLoop ⟨a, cf, fs, ev⟩ = tarLoop ⟨a2, cf2, fs2, ev2⟩ →
          (tarLoop ⟨a, cf, fs, ev⟩).buffer = [] ∧
          (∀ c, (tarLoop ⟨a, cf, fs, ev⟩).currentFile = some c → 0 < c.size) ∧
          tarLoop ⟨a ++ b, cf, fs, ev⟩ =
            tarLoop ⟨b, (tarLoop ⟨a, cf, fs, ev⟩).currentFile,
              (tarLoop ⟨a, cf, fs, ev⟩).files, (tarLoop ⟨a, cf, fs, ev⟩).events⟩ := by
        intro a2 cf2 fs2 ev2 hlt hal hwf2 hAB hA
        obtain ⟨ih1, ih2, ih3⟩ := ih a2.length hlt a2 b cf2 fs2 ev2 rfl hal hb hwf2
        refine ⟨?_, ?_, ?_⟩
        · rw [hA]; exact ih1
        · rw [hA]; exact ih2
        · rw [hAB, ih3, hA]
      cases hcfv : cf with
      | none =>
        subst hcfv
        have htlen : (a.take 512).length = 512 := take512_len a h512
        have hsplitA : a = a.take 512 ++ a.drop 512 := (List.take_append_drop 512 a).symm
        have hsplitAB : a ++ b = a.take 512 ++ (a.drop 512 ++ b) := by
          conv_lhs => rw [hsplitA]
          rw [List.append_assoc]
        have hL1 : ¬ (a ++ b).length < 512 := by rw [List.length_append]; omega
        have hL2 : ¬ a.length < 512 := by omega
        have hstepAB := tarLoop_header ⟨a ++ b, none, fs, ev⟩ hL1 rfl
        have hstepA := tarLoop_header ⟨a, none, fs, ev⟩ hL2 rfl
        rw [tarHeaderStep_on ⟨a ++ b, none, fs, ev⟩ (a.take 512) (a.drop 512 ++ b)
          hsplitAB htlen] at hstepAB
        rw [tarHeaderStep_on ⟨a, none, fs, ev⟩ (a.take 512) (a.drop 512)
          hsplitA htlen] at hstepA
        have hdl : (a.drop 512).length < n := by rw [List.length_drop]; omega
        have hdm : (a.drop 512).length % 512 = 0 := by rw [List.length_drop]; omega
        cases hp : parseTarHeader (a.take 512) with
        | none =>
          simp only [hp] at hstepAB hstepA
          exact key (a.drop 512) none fs ev hdl hdm (by intro c hco; cases hco) hstepAB hstepA
        | some hd =>
          simp only [hp] at hstepAB hstepA
          by_cases hc : hd.type = FileType.file ∧ sizeIsPos hd.size
          · rw [if_pos hc] at hstepAB hstepA
            refine key (a.drop 512) (some ⟨hd.name, sizeToNat hd.size, sizeToNat hd.size, []⟩)
              fs (ev ++ [TarEvent.openFile hd.name]) hdl hdm ?_ hstepAB hstepA
            intro c hco
            cases hco
            exact sizeToNat_pos hd.size hc.2
          · rw [if_neg hc] at hstepAB hstepA
            exact key (a.drop 512) none fs ev hdl hdm (by intro c hco; cases hco) hstepAB hstepA
      | some c =>
        subst hcfv
        have hcs : 0 < c.size := hwf c rfl
        have hL1 : ¬ (a ++ b).length < 512 := by rw [List.length_append]; omega
        have hL2 : ¬ a.length < 512 := by omega
        by_cases hA : c.size ≤ a.length
        · -- the whole body plus its padding fit inside `a`: both runs close the file
          have hpadA : (512 - c.size % 512) % 512 ≤ a.length - c.size := by omega
          have hbsA := tarBodyStep_close_spec ⟨a, some c, fs, ev⟩ c hcs hA
          rw [if_pos hpadA] at hbsA
          have hstepA := tarLoop_body_next ⟨a, some c, fs, ev⟩ c _ hL2 rfl hbsA
          have hleAB : c.size ≤ (a ++ b).length := by rw [List.length_append]; omega
          have hpadAB : (512 - c.size % 512) % 512 ≤ (a ++ b).length - c.size := by
            rw [List.length_append]; omega
          have hbsAB := tarBodyStep_close_spec ⟨a ++ b, some c, fs, ev⟩ c hcs hleAB
          rw [if_pos hpadAB] at hbsAB
          rw [take_append_small a b c.size hA, drop_append_big a b c.size hA,
            drop_append_big (a.drop c.size) b _ (by rw [List.length_drop]; omega)] at hbsAB
          have hstepAB := tarLoop_body_next ⟨a ++ b, some c, fs, ev⟩ c _ hL1 rfl hbsAB
          exact key ((a.drop c.size).drop ((512 - c.size % 512) % 512)) none
            (fs ++ [(c.name, c.content ++ a.take c.size)]) (ev ++ [TarEvent.closeFile c.name])
            (by rw [List.length_drop, List.length_drop]; omega)
            (by rw [List.length_drop, List.length_drop]; omega)
            (by intro c' hco; cases hco) hstepAB hstepA
        · -- the body spills past `a`: the run over `a` alone suspends inside the body
          have hB : a.length < c.size := by omega
          have hstopA := tarLoop_body_stop ⟨a, some c, fs, ev⟩ c _ hL2 rfl
            (tarBodyStep_stop_spec ⟨a, some c, fs, ev⟩ c hB)
          refine ⟨?_, ?_, ?_⟩
          · rw [hstopA]
          · rw [hstopA]
            intro c' h
            injection h with h'
            subst h'
            show 0 < c.size - a.length
            omega
          · rw [hstopA]
            show tarLoop ⟨a ++ b, some c, fs, ev⟩ =
              tarLoop ⟨b, some ⟨c.name, c.declared, c.size - a.length, c.content ++ a⟩, fs, ev⟩
            by_cases hbnil : b = []
            · subst hbnil
              rw [List.append_nil, hstopA,
                tarLoop_done ⟨[], some ⟨c.name, c.declared, c.size - a.length, c.content ++ a⟩,
                  fs, ev⟩ (by simp)]
            · have hb512 : 512 ≤ b.length := by
                have : b.length ≠ 0 := fun h => hbnil (List.eq_nil_of_length_eq_zero h)
                omega
              have hLb : ¬ b.length < 512 := by omega
              have hA' : a.length ≤ c.size := by omega
              by_cases hBB : c.size ≤ a.length + b.length
              · -- both runs close the file inside `b`
                have hcondL : (512 - c.size % 512) % 512 ≤ (a ++ b).length - c.size := by
                  rw [List.length_append]; omega
                have hbsL := tarBodyStep_close_spec ⟨a ++ b, some c, fs, ev⟩ c hcs
                  (by rw [List.length_append]; omega)
                rw [if_pos hcondL] at hbsL
                have hstepL := tarLoop_body_next ⟨a ++ b, some c, fs, ev⟩ c _ hL1 rfl hbsL
                have hcondR : (512 - (c.size - a.length) % 512) % 512 ≤
                    b.length - (c.size - a.length) := by omega
                have hbsR := tarBodyStep_close_spec
                  ⟨b, some ⟨c.name, c.declared, c.size - a.length, c.content ++ a⟩, fs, ev⟩
                  ⟨c.name, c.declared, c.size - a.length, c.content ++ a⟩
                  (by show 0 < c.size - a.length; omega)
                  (by show c.size - a.length ≤ b.length; omega)
                rw [if_pos hcondR] at hbsR
                have hstepR := tarLoop_body_next
                  ⟨b, some ⟨c.name, c.declared, c.size - a.length, c.content ++ a⟩, fs, ev⟩
                  ⟨c.name, c.declared, c.size - a.length, c.content ++ a⟩ _ hLb rfl hbsR
                rw [hstepL, hstepR]
                have hpadeq : (512 - (c.size - a.length) % 512) % 512 =
                    (512 - c.size % 512) % 512 := by omega
                refine congrArg tarLoop ?_
                simp [hpadeq, List.drop_append_eq_append_drop, List.take_append_eq_append_take,
                  List.drop_eq_nil_of_le hA', List.take_of_length_le hA', List.append_assoc]
              · -- the body spills past `b` as well: both runs suspend inside the body
                have hBgt : (a ++ b).length < c.size := by rw [List.length_append]; omega
                have hstepL := tarLoop_body_stop ⟨a ++ b, some c, fs, ev⟩ c _ hL1 rfl
                  (tarBodyStep_stop_spec ⟨a ++ b, some c, fs, ev⟩ c hBgt)
                have hstepR := tarLoop_body_stop
                  ⟨b, some ⟨c.name, c.declared, c.size - a.length, c.content ++ a⟩, fs, ev⟩
                  ⟨c.name, c.declared, c.size - a.length, c.content ++ a⟩ _ hLb rfl
                  (tarBodyStep_stop_spec
                    ⟨b, some ⟨c.name, c.declared, c.size - a.length, c.content ++ a⟩, fs, ev⟩
                    ⟨c.name, c.declared, c.size - a.length, c.content ++ a⟩
                    (by show b.length < c.size - a.length; omega))
                rw [hstepL, hstepR]
                simp [List.append_assoc]
                omega

theorem flatten_aligned : ∀ (chunks : List (List Nat)),
    (∀ c ∈ chunks, c.length % 512 = 0) → chunks.flatten.length % 512 = 0 := by
  intro chunks
  induction chunks with
  | nil => intro _; simp
  | cons ch chs ihc =>
    intro h
    rw [List.flatten_cons, List.length_append]
    have h1 := h ch (List.mem_cons_self ch chs)
    have h2 := ihc (fun c hc => h c (List.mem_cons_of_mem ch hc))
    omega

theorem foldl_aligned : ∀ (chunks : List (List Nat)) (cf : Option OpenFile)
    (fs : List (List Nat × List Nat)) (ev : List TarEvent),
    (∀ c ∈ chunks, c.length % 512 = 0) →
    (∀ c, cf = some c → 0 < c.size) →
    List.foldl processChunk ⟨[], cf, fs, ev⟩ chunks =
      tarLoop ⟨chunks.flatten, cf, fs, ev⟩ := by
  intro chunks
  induction chunks with
  | nil =>
    intro cf fs ev _ _
    rw [List.foldl_nil, List.flatten_nil, tarLoop_done ⟨[], cf, fs, ev⟩ (by simp)]
  | cons ch chs ihc =>
    intro cf fs ev hal hwf
    have hch : ch.length % 512 = 0 := hal ch (List.mem_cons_self ch chs)
    have hchs : ∀ c ∈ chs, c.length % 512 = 0 := fun c hc => hal c (List.mem_cons_of_mem ch hc)
    have hflat : chs.flatten.length % 512 = 0 := flatten_aligned chs hchs
    obtain ⟨hb1, hwf1, _⟩ := aligned_absorb ch.length ch [] cf fs ev rfl hch (by simp) hwf
    obtain ⟨_, _, habs⟩ := aligned_absorb ch.length ch chs.flatten cf fs ev rfl hch hflat hwf
    rw [List.foldl_cons]
    have hpc : processChunk ⟨[], cf, fs, ev⟩ ch = tarLoop ⟨ch, cf, fs, ev⟩ := by
      show tarLoop ⟨[] ++ ch, cf, fs, ev⟩ = _
      rw [List.nil_append]
    rw [hpc]
    have hs1 : tarLoop ⟨ch, cf, fs, ev⟩ =
        ⟨[], (tarLoop ⟨ch, cf, fs, ev⟩).currentFile, (tarLoop ⟨ch, cf, fs, ev⟩).files,
          (tarLoop ⟨ch, cf, fs, ev⟩).events⟩ := by
      rw [← hb1]
    rw [hs1, ihc _ _ _ hchs hwf1, ← habs, List.flatten_cons]

/-- C1 (amended): chunk-boundary independence holds for block-aligned deliveries:
if every chunk's length is a multiple of 512, feeding the chunks one by one
produces the same extracted files as feeding their concatenation in one piece. -/
theorem C1_amended (chunks : List (List Nat))
    (h : ∀ c ∈ chunks, c.length % 512 = 0) :
    extract chunks = extract [chunks.flatten] := by
  show (eofFinish (List.foldl processChunk ⟨[], none, [], []⟩ chunks)).files =
    (eofFinish (List.foldl processChunk ⟨[], none, [], []⟩ [chunks.flatten])).files
  rw [List.foldl_cons, List.foldl_nil,
    foldl_aligned chunks none [] [] h (by intro c hc; cases hc)]
  have hpc : processChunk ⟨[], none, [], []⟩ chunks.flatten =
      tarLoop ⟨chunks.flatten, none, [], []⟩ := by
    show tarLoop ⟨[] ++ chunks.flatten, none, [], []⟩ = _
    rw [List.nil_append]
  rw [hpc]

/-- Witness for C1 (amended): two 512-byte zero chunks versus their concatenation. -/
theorem C1_amended_witness :
    (∀ c ∈ [List.replicate 512 0, List.replicate 512 0], c.length % 512 = 0) ∧
    extract [List.replicate 512 0, List.replicate 512 0] =
      extract [([List.replicate 512 0, List.replicate 512 0] : List (List Nat)).flatten] :=
  ⟨by decide, C1_amended [List.replicate 512 0, List.replicate 512 0] (by decide)⟩

/-- C7: for every platform descriptor built from the enumerated OS and
architecture families and every asset name, `matchAssetName` returns true
exactly when the lower-cased name contains at least one pattern of the OS
family's table and at least one pattern of the architecture family's table. -/
theorem C7_match_iff_pattern_tables (os : OsFamily) (ar : ArchFamily) (comb : String)
    (name : String) :
    matchAssetName name ⟨osKey os, archKey ar, comb⟩ = true ↔
      ((osPatternsSpec os).any (fun pat => strIncludes (toLowerStr name) pat) = true ∧
       (archPatternsSpec ar).any (fun pat => strIncludes (toLowerStr name) pat) = true) := by
  cases os <;> cases ar <;>
    simp [matchAssetName, osKey, archKey, platformPatterns, archPatterns,
      osPatternsSpec, archPatternsSpec]

/-- C8: `findBestAsset` implements the specification's selection policy:
none on zero matches, the unique match, and with several matches the first
".tar.gz" match on non-Windows platforms, else the first match. -/
theorem C8_findBestAsset_eq_selection_policy (assets : List String) (pinfo : PlatformInfo) :
    findBestAsset assets pinfo = selectBestSpec assets pinfo := by
  simp only [findBestAsset, selectBestSpec]
  cases hm : assets.filter (fun asset => matchAssetName asset pinfo) with
  | nil => simp
  | cons m ms =>
    cases ms with
    | nil => simp
    | cons m2 ms2 =>
      by_cases hw : pinfo.platform = "win32" <;> simp [hw]

/-- C10: a platform descriptor outside the pattern tables (unknown platform
string or unknown arch string) matches no asset name, and `findBestAsset`
returns none for it. -/
theorem C10_unknown_platform_matches_nothing (assets : List String) (pinfo : PlatformInfo)
    (h : (pinfo.platform ≠ "darwin" ∧ pinfo.platform ≠ "linux" ∧ pinfo.platform ≠ "win32") ∨
         (pinfo.arch ≠ "x64" ∧ pinfo.arch ≠ "arm64" ∧ pinfo.arch ≠ "arm")) :
    (∀ name, matchAssetName name pinfo = false) ∧ findBestAsset assets pinfo = none := by
  have hm : ∀ name, matchAssetName name pinfo = false := by
    intro name
    rcases h with ⟨h1, h2, h3⟩ | ⟨h1, h2, h3⟩
    · simp [matchAssetName, platformPatterns, h1, h2, h3]
    · simp [matchAssetName, archPatterns, h1, h2, h3]
  refine ⟨hm, ?_⟩
  have hf : assets.filter (fun asset => matchAssetName asset pinfo) = [] := by
    induction assets with
    | nil => rfl
    | cons a as iha => simp [List.filter_cons, hm a, iha]
  simp only [findBestAsset, hf]
  rfl

/-- Witness for C10: the platform string "freebsd" is none of the table's
keys, so nothing matches and selection yields none. -/
theorem C10_witness :
    ((("freebsd" : String) ≠ "darwin" ∧ ("freebsd" : String) ≠ "linux" ∧
        ("freebsd" : String) ≠ "win32") ∨
      (("x64" : String) ≠ "x64" ∧ ("x64" : String) ≠ "arm64" ∧ ("x64" : String) ≠ "arm")) ∧
    ((∀ name, matchAssetName name ⟨"freebsd", "x64", "freebsd-x64"⟩ = false) ∧
      findBestAsset ["tool-x86_64-unknown-linux.tar.gz"]
        ⟨"freebsd", "x64", "freebsd-x64"⟩ = none) :=
  ⟨Or.inl (by decide),
    C10_unknown_platform_matches_nothing ["tool-x86_64-unknown-linux.tar.gz"]
      ⟨"freebsd", "x64", "freebsd-x64"⟩ (Or.inl (by decide))⟩
